import Mathlib

/-!
Shallow embedding of the core decoding pipeline of `uvb76_stream_decoder.py`
(class `UVB76StreamDecoder`).  Python floats are modelled as rationals (every
constant appearing in the source, such as 21.53 or 0.5, is exactly
representable and all comparisons in the claims are far from the ulp scale);
byte buffers are lists of naturals; `deque(maxlen=n)` is a list with
append-and-evict-oldest; Python dicts built by insertion are association
lists.  Field and function names follow the source.
-/

/-- Model of `deque(maxlen=cap)` append: when the deque is full the oldest
(leftmost) element is evicted. -/
def dequeAppend {α : Type} (cap : Nat) (l : List α) (x : α) : List α :=
  if l.length < cap then l ++ [x] else l.drop 1 ++ [x]

/-! ### Tone configuration (`__init__`) -/

/-- `self.uvb76_frequencies['freq_1']` = 21.53 Hz (first FSK tone). -/
def freq_1 : ℚ := 21.53

/-- `self.uvb76_frequencies['freq_2']` = 26.92 Hz (second FSK tone). -/
def freq_2 : ℚ := 26.92

/-- `self.uvb76_frequencies['freq_3']` = 32.30 Hz (carrier/buzzer tone). -/
def freq_3 : ℚ := 32.30

/-- `self.freq_tolerance` = 0.5 Hz (tight tolerance). -/
def freq_tolerance : ℚ := 0.5

/-- `self.min_signal_strength` = 15.0 (minimum magnitude to consider). -/
def min_signal_strength : ℚ := 15

/-! ### Tone classification (`frequency_to_binary_debug`, `frequency_to_binary`) -/

/-- Embeds `frequency_to_binary_debug` (the variant called from
`process_audio_chunk`): tight-tolerance match against the three tones, with
an explicit in-band check in the fall-through branch; `some 0` / `some 1`
are the data bits, `none` is Python `None`. -/
def frequency_to_binary_debug (frequency : ℚ) : Option Nat :=
  if |frequency - freq_1| ≤ freq_tolerance then some 0
  else if |frequency - freq_2| ≤ freq_tolerance then some 1
  else if |frequency - freq_3| ≤ freq_tolerance then none
  else if 20 ≤ frequency ∧ frequency ≤ 35 then none
  else none

/-- Embeds `frequency_to_binary` (the plain variant, identical matching but
without the in-band sub-case split in the else branch). -/
def frequency_to_binary (frequency : ℚ) : Option Nat :=
  if |frequency - freq_1| ≤ freq_tolerance then some 0
  else if |frequency - freq_2| ≤ freq_tolerance then some 1
  else if |frequency - freq_3| ≤ freq_tolerance then none
  else none

/-! ### Bit records and the bit-append fragment of `process_audio_chunk` -/

/-- One entry of `self.binary_log` (dict literal in `process_audio_chunk`). -/
structure BinRecord where
  timestamp : ℚ
  session_time : ℚ
  binary_state : Nat
  frequency : ℚ
  bit_number : Nat
deriving DecidableEq

/-- The pair of stores the decoded bits go to: `self.binary_buffer`
(deque, maxlen 500) and `self.binary_log` (plain list). -/
structure BitStreamState where
  binary_buffer : List Nat
  binary_log : List BinRecord
deriving DecidableEq

/-- Appends one already-decoded data bit exactly as the
`binary_state is not None` branch of `process_audio_chunk` does:
push onto the bounded display deque and, when `log_binary_var` is set,
append a record (with `bit_number = len(self.binary_log) + 1`) to the
unbounded log. -/
def bit_append (log_binary : Bool) (s : BitStreamState) (b : Nat)
    (now stime f : ℚ) : BitStreamState :=
  { binary_buffer := dequeAppend 500 s.binary_buffer b,
    binary_log :=
      if log_binary then
        s.binary_log ++ [⟨now, stime, b, f, s.binary_log.length + 1⟩]
      else s.binary_log }

/-- The classification-and-append fragment of `process_audio_chunk`:
`binary_state = self.frequency_to_binary_debug(peak_freq)` followed by the
append when the result is not `None`. -/
def append_binary_state (log_binary : Bool) (s : BitStreamState)
    (peak_freq now stime : ℚ) : BitStreamState :=
  match frequency_to_binary_debug peak_freq with
  | none => s
  | some b => bit_append log_binary s b now stime peak_freq

/-! ### FSK state tracking (`update_fsk_state`) -/

/-- The label strings built in `update_fsk_state` are f-strings; the three
tone labels are the fixed strings `FSK-i (<tone>Hz)` and the fall-through
label renders the frequency at two decimals, modelled by rounding to
centihertz (Python `%.2f`; the half-way tie direction differs but no claim
depends on it). -/
inductive FskLabel where
  | fsk1
  | fsk2
  | fsk3
  | unknown (centihz : ℤ)
deriving DecidableEq

/-- The `new_state` label computation in `update_fsk_state` (tight
tolerance, as in the source). -/
def fsk_label (frequency : ℚ) : FskLabel :=
  if |frequency - freq_1| ≤ freq_tolerance then .fsk1
  else if |frequency - freq_2| ≤ freq_tolerance then .fsk2
  else if |frequency - freq_3| ≤ freq_tolerance then .fsk3
  else .unknown (round (100 * frequency))

/-- One entry of `self.fsk_state_history` (dict literal in
`update_fsk_state`). -/
structure FskEvent where
  state : FskLabel
  frequency : ℚ
  magnitude : ℚ
  timestamp : ℚ
  duration : ℚ
deriving DecidableEq

/-- The FSK tracking attributes of the decoder:
`current_fsk_state`, `last_fsk_change`, `fsk_state_history` (maxlen 50). -/
structure FskTracker where
  current_fsk_state : Option FskLabel
  last_fsk_change : Option ℚ
  fsk_state_history : List FskEvent
deriving DecidableEq

/-- Python `x or y` where `x` is a float-or-None: yields `y` when `x` is
`None` or `0.0`, else `x`.  Used for `self.last_fsk_change or current_time`. -/
def pyOr (x : Option ℚ) (y : ℚ) : ℚ :=
  match x with
  | none => y
  | some v => if v = 0 then y else v

/-- Embeds `update_fsk_state`.  Statement order follows the source: when the
label changed, `self.last_fsk_change` is assigned `current_time` FIRST and
the appended event's `duration` then reads
`current_time - (self.last_fsk_change or current_time)` from the already
overwritten attribute. -/
def update_fsk_state (s : FskTracker) (current_time frequency magnitude : ℚ) :
    FskTracker :=
  let new_state := fsk_label frequency
  if some new_state ≠ s.current_fsk_state then
    let last_fsk_change : Option ℚ := some current_time
    { current_fsk_state := some new_state,
      last_fsk_change := last_fsk_change,
      fsk_state_history := dequeAppend 50 s.fsk_state_history
        ⟨new_state, frequency, magnitude, current_time,
         current_time - pyOr last_fsk_change current_time⟩ }
  else s

/-! ### Session state and the reset in `start_stream` -/

/-- One entry of `self.frequency_log`. -/
structure FreqRecord where
  timestamp : ℚ
  session_time : ℚ
  frequency : ℚ
  magnitude : ℚ
  audio_level : ℚ
deriving DecidableEq

/-- One entry of `self.waterfall_log`. -/
structure WaterfallRecord where
  timestamp : ℚ
  session_time : ℚ
  frequencies : List ℚ
  magnitudes : List ℚ
deriving DecidableEq

/-- The mutable session state of `UVB76StreamDecoder` touched by
`start_stream` and the analysis pipeline: the bounded deques, the unbounded
logs, the session counters, and the FSK tracking attributes. -/
structure DecoderSession where
  frequency_buffer : List ℚ
  binary_buffer : List Nat
  time_buffer : List ℚ
  audio_level_buffer : List ℚ
  waterfall_data : List (List ℚ)
  waterfall_times : List ℚ
  binary_log : List BinRecord
  frequency_log : List FreqRecord
  waterfall_log : List WaterfallRecord
  session_start_time : Option ℚ
  bytes_received : Nat
  chunks_processed : Nat
  current_fsk_state : Option FskLabel
  last_fsk_change : Option ℚ
  fsk_state_history : List FskEvent
deriving DecidableEq

/-- The reset performed by `start_stream` before the producer and consumer
threads are started: sets `session_start_time`, clears the six display
deques (`frequency_buffer`, `binary_buffer`, `time_buffer`,
`audio_level_buffer`, `waterfall_data`, `waterfall_times`) and re-initialises
the three logs.  No other attribute is touched there. -/
def start_stream_reset (s : DecoderSession) (now : ℚ) : DecoderSession :=
  { s with
    session_start_time := some now,
    frequency_buffer := [],
    binary_buffer := [],
    time_buffer := [],
    audio_level_buffer := [],
    waterfall_data := [],
    waterfall_times := [],
    binary_log := [],
    frequency_log := [],
    waterfall_log := [] }

/-! ### Audio decoding (the three `np.frombuffer` attempts in
`process_audio_chunk`) -/

/-- Signed 16-bit value from two byte values (low, high);
`np.frombuffer(…, dtype=np.int16)` on little-endian data. -/
def int16_of (lo hi : Nat) : ℤ :=
  let v : ℤ := ((lo % 256 : Nat) : ℤ) + 256 * ((hi % 256 : Nat) : ℤ)
  if v < 32768 then v else v - 65536

/-- Consecutive byte pairs of a buffer (`np.frombuffer` element framing for
2-byte dtypes; the caller checks the length is even, mirroring the
`ValueError` the odd case raises in NumPy). -/
def pairs16 : List Nat → List (Nat × Nat)
  | b0 :: b1 :: rest => (b0, b1) :: pairs16 rest
  | _ => []

/-- `np.frombuffer(audio_bytes, dtype=np.int16)` — little-endian int16. -/
def int16le_samples (b : List Nat) : List ℤ :=
  (pairs16 b).map fun p => int16_of p.1 p.2

/-- `np.frombuffer(audio_bytes, dtype='>i2')` — big-endian int16. -/
def int16be_samples (b : List Nat) : List ℤ :=
  (pairs16 b).map fun p => int16_of p.2 p.1

/-- Consecutive byte quadruples (framing for 4-byte dtypes). -/
def quads : List Nat → List (Nat × Nat × Nat × Nat)
  | b0 :: b1 :: b2 :: b3 :: rest => (b0, b1, b2, b3) :: quads rest
  | _ => []

/-- An IEEE-754 binary32 value: NaN, a signed infinity, or a finite rational. -/
inductive F32 where
  | nan
  | inf (negative : Bool)
  | fin (value : ℚ)
deriving DecidableEq

/-- Decode one little-endian IEEE-754 binary32 value from four byte values
(`np.frombuffer(…, dtype=np.float32)` element semantics). -/
def float32_of (b0 b1 b2 b3 : Nat) : F32 :=
  let bits := (b0 % 256) + 256 * (b1 % 256) + 65536 * (b2 % 256)
      + 16777216 * (b3 % 256)
  let sign : Nat := bits / 2 ^ 31
  let expo : Nat := (bits / 2 ^ 23) % 256
  let frac : Nat := bits % 2 ^ 23
  let sgn : ℚ := if sign = 1 then -1 else 1
  if expo = 255 then
    if frac = 0 then .inf (sign = 1) else .nan
  else if expo = 0 then
    .fin (sgn * ((frac : ℚ) / 2 ^ 23) * (2 : ℚ) ^ (-(126 : ℤ)))
  else
    .fin (sgn * (1 + (frac : ℚ) / 2 ^ 23) * (2 : ℚ) ^ ((expo : ℤ) - 127))

/-- `np.frombuffer(audio_bytes, dtype=np.float32)`. -/
def float32_samples (b : List Nat) : List F32 :=
  (quads b).map fun q => float32_of q.1 q.2.1 q.2.2.1 q.2.2.2

/-- The decoded-audio value produced by `process_audio_chunk`'s decoding
cascade, tagged by the interpretation that produced it (the int16 branches
divide by 32768; int16/32768 is exact in binary32, so the rational values
are exact). -/
inductive DecodedAudio where
  | int16le (samples : List ℚ)
  | float32 (samples : List F32)
  | int16be (samples : List ℚ)
deriving DecidableEq

/-- The audio-decoding cascade of `process_audio_chunk`: try int16
little-endian (normalised by 32768), then float32, then int16 big-endian
(normalised by 32768); an attempt fails when the buffer length is not a
multiple of the element size (NumPy raises, the bare `except` swallows it)
or when it yields fewer than 100 samples; `none` models the
`audio_data is None` early return. -/
def process_audio_chunk_decode (audio_bytes : List Nat) : Option DecodedAudio :=
  let m1 : Option (List ℚ) :=
    if audio_bytes.length % 2 = 0 then
      let s := (int16le_samples audio_bytes).map fun v : ℤ => (v : ℚ) / 32768
      if s.length < 100 then none else some s
    else none
  match m1 with
  | some s => some (.int16le s)
  | none =>
    let m2 : Option (List F32) :=
      if audio_bytes.length % 4 = 0 then
        let s := float32_samples audio_bytes
        if s.length < 100 then none else some s
      else none
    match m2 with
    | some s => some (.float32 s)
    | none =>
      let m3 : Option (List ℚ) :=
        if audio_bytes.length % 2 = 0 then
          let s := (int16be_samples audio_bytes).map fun v : ℤ => (v : ℚ) / 32768
          if s.length < 100 then none else some s
        else none
      match m3 with
      | some s => some (.int16be s)
      | none => none

/-! ### Spectral peak selection (`process_audio_chunk`, UVB band block) -/

/-- One positive-frequency spectral bin: its frequency (Hz) and FFT
magnitude.  In the source the bins arrive in ascending frequency order
(`fftfreq` positive half), so list position is frequency order. -/
structure Bin where
  freq : ℚ
  mag : ℚ
deriving DecidableEq

/-- The band mask `(freqs >= 20.0) & (freqs <= 34.0)` applied to the bins. -/
def target_range_bins (bins : List Bin) : List Bin :=
  bins.filter fun b => decide (20 ≤ b.freq) && decide (b.freq ≤ 34)

/-- The `significant_peaks` list: in-band bins whose magnitude meets the
minimum-signal-strength threshold, in encounter (frequency) order. -/
def significant_peaks (thr : ℚ) (bins : List Bin) : List Bin :=
  (target_range_bins bins).filter fun b => decide (thr ≤ b.mag)

/-- `significant_peaks.sort(key=lambda x: x[1], reverse=True)`: a stable
sort descending by magnitude (CPython's sort is stable, also under
`reverse=True`), modelled as insertion sort where an element is placed
before the first strictly smaller magnitude. -/
def sort_by_mag_desc (l : List Bin) : List Bin :=
  List.insertionSort (fun a b => b.mag ≤ a.mag) l

/-- The emitted `Peak`: head of the descending-sorted significant peaks,
`none` when no in-band bin meets the threshold (the `if significant_peaks:`
guard fails and the whole detection block is skipped). -/
def select_peak (thr : ℚ) (bins : List Bin) : Option Bin :=
  (sort_by_mag_desc (significant_peaks thr bins)).head?

/-- The `is_uvb_frequency` check in `process_audio_chunk`: match against any
of the three tones at twice the tight tolerance. -/
def is_uvb_frequency (f : ℚ) : Bool :=
  decide (|f - freq_1| ≤ freq_tolerance * 2)
    || decide (|f - freq_2| ≤ freq_tolerance * 2)
    || decide (|f - freq_3| ≤ freq_tolerance * 2)

/-- `current_time - self.session_start_time if self.session_start_time else 0`
(the start time is falsy when `None` or `0.0`). -/
def session_time_of (s : DecoderSession) (current_time : ℚ) : ℚ :=
  match s.session_start_time with
  | none => 0
  | some t0 => if t0 = 0 then 0 else current_time - t0

/-- The detection block of `process_audio_chunk` downstream of the band
restriction: select the peak; if present and matching a known UVB tone at
wide tolerance (and strong enough), update the FSK tracker, push frequency
and time onto their deques (maxlen 1000), append to `frequency_log` when
enabled, classify to a bit and append it when not `None`.  When no
significant peak exists the session state is returned unchanged. -/
def process_peak_block (log_frequency log_binary : Bool) (s : DecoderSession)
    (bins : List Bin) (current_time audio_level : ℚ) : DecoderSession :=
  match select_peak min_signal_strength bins with
  | none => s
  | some peak =>
    if is_uvb_frequency peak.freq ∧ min_signal_strength ≤ peak.mag then
      let fsk := update_fsk_state
        ⟨s.current_fsk_state, s.last_fsk_change, s.fsk_state_history⟩
        current_time peak.freq peak.mag
      let s1 := { s with
        current_fsk_state := fsk.current_fsk_state,
        last_fsk_change := fsk.last_fsk_change,
        fsk_state_history := fsk.fsk_state_history,
        frequency_buffer := dequeAppend 1000 s.frequency_buffer peak.freq,
        time_buffer := dequeAppend 1000 s.time_buffer current_time,
        frequency_log :=
          if log_frequency then
            s.frequency_log ++ [⟨current_time, session_time_of s current_time,
              peak.freq, peak.mag, audio_level⟩]
          else s.frequency_log }
      match frequency_to_binary_debug peak.freq with
      | none => s1
      | some b =>
        { s1 with
          binary_buffer := dequeAppend 500 s1.binary_buffer b,
          binary_log :=
            if log_binary then
              s1.binary_log ++ [⟨current_time, session_time_of s current_time,
                b, peak.freq, s1.binary_log.length + 1⟩]
            else s1.binary_log }
    else s

/-! ### Bit accumulation over a session (repeated `bit_append`) -/

/-- Runs the bit-append fragment once per decoded data bit, in order,
starting from empty stores — the accumulator behaviour over a session.
Each input carries the bit and its metadata (timestamp, session time,
frequency). -/
def run_bits (log_binary : Bool) (xs : List (Nat × ℚ × ℚ × ℚ)) :
    BitStreamState :=
  xs.foldl (fun s x => bit_append log_binary s x.1 x.2.1 x.2.2.1 x.2.2.2)
    ⟨[], []⟩

/-! ### Pattern decoding (`analyze_patterns`, `decode_binary_sequence`) -/

/-- Bits grouped into 8-bit bytes: the loop
`for i in range(0, len(bit_string) - 7, 8)` visits exactly the disjoint
8-element windows that fit entirely (window start `i` requires
`i + 8 <= len`). -/
def chunk8 : List Nat → List (List Nat)
  | b0 :: b1 :: b2 :: b3 :: b4 :: b5 :: b6 :: b7 :: rest =>
    [b0, b1, b2, b3, b4, b5, b6, b7] :: chunk8 rest
  | _ => []

/-- Bits grouped into 4-bit nibbles (`range(0, len - 3, 4)`). -/
def chunk4 : List Nat → List (List Nat)
  | b0 :: b1 :: b2 :: b3 :: rest => [b0, b1, b2, b3] :: chunk4 rest
  | _ => []

/-- Bits grouped into 5-bit codes (`range(0, len - 4, 5)`). -/
def chunk5 : List Nat → List (List Nat)
  | b0 :: b1 :: b2 :: b3 :: b4 :: rest => [b0, b1, b2, b3, b4] :: chunk5 rest
  | _ => []

/-- `int(byte, 2)`: big-endian value of a bit group. -/
def bits_to_nat (l : List Nat) : Nat :=
  l.foldl (fun acc b => 2 * acc + b) 0

/-- Number of non-overlapping occurrences of `pat` in `s`
(Python `str.count` on the bit string; bits and their rendered characters
correspond one to one).  Structural fuel recursion (`fuel = s.length`)
keeps the definition kernel-reducible. -/
def count_nonoverlapping_aux (pat : List Nat) : Nat → List Nat → Nat
  | 0, _ => 0
  | _, [] => 0
  | fuel + 1, x :: rest =>
    if pat ≠ [] ∧ pat.isPrefixOf (x :: rest) then
      1 + count_nonoverlapping_aux pat fuel ((x :: rest).drop pat.length)
    else
      count_nonoverlapping_aux pat fuel rest

/-- Number of non-overlapping occurrences of `pat` in `s`. -/
def count_nonoverlapping (pat s : List Nat) : Nat :=
  count_nonoverlapping_aux pat s.length s

/-- Renders a bit group as Python renders it into `bit_string`
(one character per bit). -/
def bits_string (l : List Nat) : String :=
  String.join (l.map fun b => toString b)

/-- The repeating-sequence scan of `analyze_patterns`: for window lengths 4,
8, 16 and every window start `i < len - length`, report the window as
`<pattern>(<count>x)` when its non-overlapping occurrence count exceeds 2
(the `len(pattern) >= 4` conjunct is always true). -/
def patterns_scan (bits : List Nat) : List String :=
  [4, 8, 16].flatMap fun length =>
    (List.range (bits.length - length)).filterMap fun i =>
      let pattern := (bits.drop i).take length
      let count := count_nonoverlapping pattern bits
      if 2 < count then
        some (bits_string pattern ++ "(" ++ toString count ++ "x)")
      else none

/-- A value stored in the `results` dict of `decode_binary_sequence`:
either a plain string, or the statistics entry, kept structured as the
numbers that fill its f-string (the Shannon-entropy float and the f-string
rendering itself are not modelled; no claim consults this slot). -/
inductive SlotVal where
  | s (value : String)
  | stats (ones zeros : Nat) (p1 p0 : ℚ)
deriving DecidableEq

/-- One decode method as `decode_binary_sequence` runs it: a computation
that either raises (`Except.error`, caught by the method's bare `except`)
or finishes, and on finishing either stores a value under the method's key
(`some`) or leaves the key absent (`none`, the falsy-result case). -/
def Codec : Type := List Nat → Except String (Option SlotVal)

/-- The effect of one `try/except` block of `decode_binary_sequence` on the
`results` dict: a raised exception stores the method's failure-marker
string instead of its value. -/
def run_codec (marker : String) (c : Except String (Option SlotVal)) :
    Option SlotVal :=
  match c with
  | .error _ => some (.s marker)
  | .ok v => v

/-- The `results` dict built by running every method in order, as an
insertion-ordered association list; each entry is `(key, marker, method)`. -/
def codec_slots (codecs : List (String × String × Codec)) (bits : List Nat) :
    List (String × SlotVal) :=
  codecs.filterMap fun c =>
    match run_codec c.2.1 (c.2.2 bits) with
    | none => none
    | some v => some (c.1, v)

/-- `decode_binary_sequence`, generic in its list of methods: fewer than 8
bits yields the error dict and runs nothing; otherwise every method runs and
the report is returned. -/
def decode_binary_sequence_gen (codecs : List (String × String × Codec))
    (bits : List Nat) : Except String (List (String × SlotVal)) :=
  if bits.length < 8 then .error "Need at least 8 bits for decoding"
  else .ok (codec_slots codecs bits)

/-- Method 1, ASCII decoding: each byte in the printable range [32,126]
becomes its character, any other value is rendered `[<value>]`; the key is
set only when the string is non-empty, truncated to 50 characters. -/
def ascii_codec : Codec := fun bits =>
  let r := String.join ((chunk8 bits).map fun byte =>
    let v := bits_to_nat byte
    if 32 ≤ v ∧ v ≤ 126 then String.mk [Char.ofNat v]
    else "[" ++ toString v ++ "]")
  .ok (if r.isEmpty then none else some (.s (r.take 50)))

/-- Method 2, 4-bit nibbles as decimal strings, first 20, space-joined. -/
def nibbles_codec : Codec := fun bits =>
  let ns := (chunk4 bits).map fun n => toString (bits_to_nat n)
  .ok (if ns.isEmpty then none else some (.s (" ".intercalate (ns.take 20))))

/-- Method 3, 8-bit bytes as decimal strings, first 15, space-joined. -/
def bytes_decimal_codec : Codec := fun bits =>
  let bs := (chunk8 bits).map fun byte => toString (bits_to_nat byte)
  .ok (if bs.isEmpty then none else some (.s (" ".intercalate (bs.take 15))))

/-- Hexadecimal digit for a value below 16 (uppercase, as `%X`). -/
def hexDigit (n : Nat) : Char :=
  if n < 10 then Char.ofNat (48 + n) else Char.ofNat (55 + n)

/-- Method 4, bytes as two-digit uppercase hex followed by a space,
concatenated and truncated to 60 characters. -/
def hex_codec : Codec := fun bits =>
  let r := String.join ((chunk8 bits).map fun byte =>
    let v := bits_to_nat byte
    String.mk [hexDigit (v / 16), hexDigit (v % 16), ' '])
  .ok (if r.isEmpty then none else some (.s (r.take 60)))

/-- The fixed 26-entry `baudot_letters` table, keyed by the value of the
5-bit code string. -/
def baudot_letter (v : Nat) : Option Char :=
  match v with
  | 24 => some 'A' | 19 => some 'B' | 14 => some 'C' | 18 => some 'D'
  | 16 => some 'E' | 22 => some 'F' | 11 => some 'G' | 5 => some 'H'
  | 12 => some 'I' | 26 => some 'J' | 30 => some 'K' | 9 => some 'L'
  | 7 => some 'M' | 6 => some 'N' | 3 => some 'O' | 13 => some 'P'
  | 29 => some 'Q' | 10 => some 'R' | 20 => some 'S' | 1 => some 'T'
  | 28 => some 'U' | 15 => some 'V' | 25 => some 'W' | 23 => some 'X'
  | 21 => some 'Y' | 17 => some 'Z'
  | _ => none

/-- Method 5, Baudot: 5-bit codes through the table, `?` for unmapped,
first 30 characters. -/
def baudot_codec : Codec := fun bits =>
  let r := String.mk ((chunk5 bits).map fun c =>
    (baudot_letter (bits_to_nat c)).getD '?')
  .ok (if r.isEmpty then none else some (.s (r.take 30)))

/-- Method 6, BCD: 4-bit values 0–9 as the digit, `X` otherwise, first 40. -/
def bcd_codec : Codec := fun bits =>
  let r := String.mk ((chunk4 bits).map fun n =>
    let v := bits_to_nat n
    if v ≤ 9 then Char.ofNat (48 + v) else 'X')
  .ok (if r.isEmpty then none else some (.s (r.take 40)))

/-- The `sync_patterns` dict of method 7, in insertion order. -/
def sync_patterns_table : List (List Nat × String) :=
  [([1,0,1,0,1,0,1,0], "SYNC_AA"), ([0,1,0,1,0,1,0,1], "SYNC_55"),
   ([1,1,1,1,0,0,0,0], "SYNC_F0"), ([0,0,0,0,1,1,1,1], "SYNC_0F"),
   ([1,1,1,1,1,1,1,1], "ALL_ONES"), ([0,0,0,0,0,0,0,0], "ALL_ZEROS")]

/-- Method 7, sync-pattern detection: each fixed pattern with a non-zero
non-overlapping count reports `<name>(<count>)`; the key is always set. -/
def sync_codec : Codec := fun bits =>
  let found := sync_patterns_table.filterMap fun p =>
    let count := count_nonoverlapping p.1 bits
    if 0 < count then some (p.2 ++ "(" ++ toString count ++ ")") else none
  .ok (some (.s (if found.isEmpty then "None detected"
    else ", ".intercalate found)))

/-- Method 8, statistics: counts of 1s and 0s and their proportions (the
guard `total_bits > 0` always holds here since at least 8 bits are present). -/
def stats_codec : Codec := fun bits =>
  let ones := bits.count 1
  let zeros := bits.count 0
  let total := bits.length
  .ok (if total = 0 then none
    else some (.stats ones zeros ((ones : ℚ) / total) ((zeros : ℚ) / total)))

/-- The eight methods of `decode_binary_sequence`, in source order, each
with its key and its failure-marker string. -/
def decode_codecs : List (String × String × Codec) :=
  [("ascii_8bit", "Decode failed", ascii_codec),
   ("nibbles_4bit", "Decode failed", nibbles_codec),
   ("bytes_decimal", "Decode failed", bytes_decimal_codec),
   ("hex_bytes", "Decode failed", hex_codec),
   ("baudot_5bit", "Decode failed", baudot_codec),
   ("bcd_decimal", "Decode failed", bcd_codec),
   ("sync_patterns", "Analysis failed", sync_codec),
   ("statistics", "Calc failed", stats_codec)]

/-- `decode_binary_sequence` as shipped: the generic dispatcher over the
eight source methods. -/
def decode_binary_sequence (bits : List Nat) :
    Except String (List (String × SlotVal)) :=
  decode_binary_sequence_gen decode_codecs bits

instance {ε α : Type} [DecidableEq ε] [DecidableEq α] :
    DecidableEq (Except ε α) := fun a b =>
  match a, b with
  | .error e, .error f =>
    if h : e = f then isTrue (by rw [h])
    else isFalse (by intro hh; cases hh; exact h rfl)
  | .ok x, .ok y =>
    if h : x = y then isTrue (by rw [h])
    else isFalse (by intro hh; cases hh; exact h rfl)
  | .error _, .ok _ => isFalse (by intro h; cases h)
  | .ok _, .error _ => isFalse (by intro h; cases h)

/-- Result of `analyze_patterns`: the bare string `"Insufficient data"` for
fewer than 8 bits, else the dict with the (truncated) repeating-pattern list
and the decode report. -/
inductive PatternsReport where
  | insufficient
  | report (patterns : List String)
      (decoded : Except String (List (String × SlotVal)))
deriving DecidableEq

/-- `analyze_patterns`, generic in the decode methods it dispatches to. -/
def analyze_patterns_gen (codecs : List (String × String × Codec))
    (bits : List Nat) : PatternsReport :=
  if bits.length < 8 then .insufficient
  else
    let ps := patterns_scan bits
    .report (if ps.isEmpty then ["No clear patterns"] else ps.take 5)
      (decode_binary_sequence_gen codecs bits)

/-- `analyze_patterns` as shipped. -/
def analyze_patterns (bits : List Nat) : PatternsReport :=
  analyze_patterns_gen decode_codecs bits

/-! ### Monolit heuristic (`detect_monolit_coding`) -/

/-- The ASCII rendering built in `detect_monolit_coding`: each byte in
[32,126] as its character, any other as `.`. -/
def ascii_chars_of (bits : List Nat) : List Char :=
  (chunk8 bits).map fun byte =>
    let v := bits_to_nat byte
    if 32 ≤ v ∧ v ≤ 126 then Char.ofNat v else '.'

/-- Python `str.isalnum` on the characters that can occur here (printable
ASCII and `.`): letters and digits. -/
def isPyAlnum (c : Char) : Bool := c.isAlpha || c.isDigit

/-- An ASCII apostrophe, used by the candidate f-string
`f"'{pattern}' (repeated)"`. -/
def quoteChar : Char := Char.ofNat 39

/-- Method 1 of `detect_monolit_coding`: for lengths 3, 4, 5 and every
window start `i < len - 2*length`, report the window when it is immediately
repeated and alphanumeric (`f"'{pattern}' (repeated)"`). -/
def callsign_patterns (cs : List Char) : List String :=
  [3, 4, 5].flatMap fun length =>
    (List.range (cs.length - length * 2)).filterMap fun i =>
      let pattern := (cs.drop i).take length
      let next_pattern := (cs.drop (i + length)).take length
      if pattern = next_pattern ∧ pattern ≠ [] ∧ pattern.all isPyAlnum then
        some (String.mk [quoteChar] ++ String.mk pattern
          ++ String.mk [quoteChar] ++ " (repeated)")
      else none

/-- The digit rendering built for methods 2 and 3: each byte in the ASCII
digit range [48,57] as its character, any other as a space. -/
def decimal_sequence_of (bits : List Nat) : List Char :=
  (chunk8 bits).map fun byte =>
    let v := bits_to_nat byte
    if 48 ≤ v ∧ v ≤ 57 then Char.ofNat v else ' '

/-- Maximal runs of characters satisfying `p` (in order; separators
dropped).  Structural recursion on the character list with an accumulator
for the run being read. -/
def runs_aux (p : Char → Bool) (acc : List Char) : List Char → List (List Char)
  | [] => if acc.isEmpty then [] else [acc.reverse]
  | c :: rest =>
    if p c then runs_aux p (c :: acc) rest
    else if acc.isEmpty then runs_aux p [] rest
    else acc.reverse :: runs_aux p [] rest

/-- Maximal runs of characters satisfying `p`. -/
def word_runs (p : Char → Bool) (cs : List Char) : List (List Char) :=
  runs_aux p [] cs

/-- Method 2: `re.findall(r'\b\d{5}\b', decimal_sequence)`.  The string
holds only digits and spaces, and a space is the only non-word character,
so the matches are exactly the maximal digit runs of length exactly 5. -/
def five_digit_groups (ds : List Char) : List String :=
  ((word_runs Char.isDigit ds).filter fun r => r.length = 5).map
    fun r => String.mk r

/-- Method 3: `re.findall(r'\b\d{8}\b', decimal_sequence)` — maximal digit
runs of length exactly 8. -/
def eight_digit_blocks (ds : List Char) : List String :=
  ((word_runs Char.isDigit ds).filter fun r => r.length = 8).map
    fun r => String.mk r

/-- A regex word character, `[A-Za-z0-9_]`. -/
def isWordChar (c : Char) : Bool := c.isAlpha || c.isDigit || c = '_'

/-- Method 4: `re.findall(r'\b[A-Z]{4,6}\b', ascii_chars.upper())`.  A match
needs word boundaries on both sides, so the matches are exactly the maximal
word-character runs made of uppercase letters only whose length lies in
[4,6]. -/
def code_word_candidates (cs : List Char) : List String :=
  ((word_runs isWordChar (cs.map Char.toUpper)).filter fun r =>
    decide (4 ≤ r.length) && decide (r.length ≤ 6)
      && r.all fun c => decide ('A' ≤ c) && decide (c ≤ 'Z')).map
    fun r => String.mk r

/-- The Monolit likelihood score: +30 for any callsign candidate, +25 for
any five-digit group, +25 for any eight-digit block, +20 for any code-word
candidate. -/
def monolit_score (bits : List Nat) : Nat :=
  (if callsign_patterns (ascii_chars_of bits) ≠ [] then 30 else 0)
    + (if five_digit_groups (decimal_sequence_of bits) ≠ [] then 25 else 0)
    + (if eight_digit_blocks (decimal_sequence_of bits) ≠ [] then 25 else 0)
    + (if code_word_candidates (ascii_chars_of bits) ≠ [] then 20 else 0)

/-- The qualitative band string for a score. -/
def monolit_likelihood (score : Nat) : String :=
  if 70 ≤ score then "HIGH - Strong Monolit characteristics"
  else if 40 ≤ score then "MEDIUM - Some Monolit patterns"
  else if 20 ≤ score then "LOW - Few Monolit indicators"
  else "NONE - No clear Monolit patterns"

/-- Result of `detect_monolit_coding`: the error dict for fewer than 64
bits, else the report (candidate lists truncated as in the source; the
empty list models the `"None detected"` marker; the structure-analysis
strings and the optional timing analysis add no information beyond these
fields and are omitted). -/
inductive MonolitResult where
  | insufficient (msg : String)
  | report (callsign_candidates five_digit_groups_found
      eight_digit_blocks_found code_word_candidates_found : List String)
      (score : Nat) (monolit_likelihood_msg : String)
deriving DecidableEq

/-- `detect_monolit_coding` on the bit list (timing analysis aside, the
function of the bit list alone). -/
def detect_monolit_coding (bits : List Nat) : MonolitResult :=
  if bits.length < 64 then
    .insufficient "Insufficient data for Monolit analysis"
  else
    let ascii_chars := ascii_chars_of bits
    let ds := decimal_sequence_of bits
    .report ((callsign_patterns ascii_chars).take 5)
      ((five_digit_groups ds).take 10)
      ((eight_digit_blocks ds).take 5)
      ((code_word_candidates ascii_chars).take 5)
      (monolit_score bits)
      (monolit_likelihood (monolit_score bits))

/-! ## Theorems -/

/-- C10: for every frequency, the plain classifier `frequency_to_binary`
and the debug classifier `frequency_to_binary_debug` (the one the pipeline
calls) return the same value in {some 0, some 1, none}. -/
theorem classifier_variants_agree (f : ℚ) :
    frequency_to_binary f = frequency_to_binary_debug f := by
  unfold frequency_to_binary frequency_to_binary_debug
  split_ifs <;> rfl

/-- C1 (failing input): two label changes separated by a positive gap —
classification at time 1 of tone 21.53 Hz and at time 3 of tone 26.92 Hz —
produce a second FskEvent whose recorded duration is 0, not the ended
state's length 3 − 1 = 2, because `update_fsk_state` overwrites
`last_fsk_change` before computing the duration. -/
theorem fsk_event_duration_at_failing_input :
    ((update_fsk_state (update_fsk_state ⟨none, none, []⟩ 1 21.53 30)
        3 26.92 30).fsk_state_history.map FskEvent.duration) = [0, 0] ∧
    (3 : ℚ) - 1 = 2 ∧ (2 : ℚ) ≠ 0 := by
  refine ⟨?_, by norm_num, by norm_num⟩
  have h1 : update_fsk_state ⟨none, none, []⟩ 1 21.53 30 =
      ⟨some .fsk1, some 1, [⟨.fsk1, 21.53, 30, 1, 1 - 1⟩]⟩ := by
    unfold update_fsk_state fsk_label pyOr dequeAppend
    norm_num [freq_1, freq_2, freq_3, freq_tolerance]
    decide
  rw [h1]
  have h2 : update_fsk_state
      ⟨some .fsk1, some 1, [⟨.fsk1, 21.53, 30, 1, 1 - 1⟩]⟩ 3 26.92 30 =
      ⟨some .fsk2, some 3,
        [⟨.fsk1, 21.53, 30, 1, 1 - 1⟩, ⟨.fsk2, 26.92, 30, 3, 3 - 3⟩]⟩ := by
    unfold update_fsk_state fsk_label pyOr dequeAppend
    norm_num [freq_1, freq_2, freq_3, freq_tolerance]
    simp only [show |(539 : ℚ) / 100| = 539 / 100 from abs_of_pos (by norm_num)]
    norm_num
    decide
  rw [h2]
  norm_num

/-- C5 (counterexample): starting a session is not a full reset.  From a
state with 5 chunks processed, 7 bytes received and one FSK event in the
history, `start_stream` leaves the counters non-zero and the FSK history
non-empty, contradicting the claim that they are cleared with everything
else. -/
theorem start_stream_reset_is_partial :
    (start_stream_reset
      ⟨[1], [0], [2], [3], [[4]], [5], [], [], [], none, 7, 5, none, none,
        [⟨.fsk1, 21.53, 30, 1, 0⟩]⟩ 10).chunks_processed = 5 ∧
    (start_stream_reset
      ⟨[1], [0], [2], [3], [[4]], [5], [], [], [], none, 7, 5, none, none,
        [⟨.fsk1, 21.53, 30, 1, 0⟩]⟩ 10).bytes_received = 7 ∧
    (start_stream_reset
      ⟨[1], [0], [2], [3], [[4]], [5], [], [], [], none, 7, 5, none, none,
        [⟨.fsk1, 21.53, 30, 1, 0⟩]⟩ 10).fsk_state_history ≠ [] ∧
    (5 : Nat) ≠ 0 ∧ (7 : Nat) ≠ 0 := by
  refine ⟨rfl, rfl, ?_, by decide, by decide⟩
  decide

/-- C5 (amended): `start_stream` clears the frequency, binary, time,
audio-level and waterfall display buffers and the three logs together, and
stamps the session start, before the producer and consumer threads start;
but it does not clear the FSK-state-history buffer and does not reset the
bytes-received or chunks-processed counters (nor the current FSK state). -/
theorem start_stream_reset_clears (s : DecoderSession) (now : ℚ) :
    (start_stream_reset s now).frequency_buffer = [] ∧
    (start_stream_reset s now).binary_buffer = [] ∧
    (start_stream_reset s now).time_buffer = [] ∧
    (start_stream_reset s now).audio_level_buffer = [] ∧
    (start_stream_reset s now).waterfall_data = [] ∧
    (start_stream_reset s now).waterfall_times = [] ∧
    (start_stream_reset s now).binary_log = [] ∧
    (start_stream_reset s now).frequency_log = [] ∧
    (start_stream_reset s now).waterfall_log = [] ∧
    (start_stream_reset s now).session_start_time = some now ∧
    (start_stream_reset s now).fsk_state_history = s.fsk_state_history ∧
    (start_stream_reset s now).current_fsk_state = s.current_fsk_state ∧
    (start_stream_reset s now).last_fsk_change = s.last_fsk_change ∧
    (start_stream_reset s now).bytes_received = s.bytes_received ∧
    (start_stream_reset s now).chunks_processed = s.chunks_processed :=
  ⟨rfl, rfl, rfl, rfl, rfl, rfl, rfl, rfl, rfl, rfl, rfl, rfl, rfl, rfl, rfl⟩

/-- C2: a peak frequency handed to the classifier appends a bit to the bit
buffer (and, when logging is enabled, to the bit log) iff it matches tone 0
(21.53 Hz) or tone 1 (26.92 Hz) within the tight tolerance 0.5 Hz; every
other frequency — carrier match, unmatched in-band, out-of-band — leaves the
stores untouched; in particular 21.0 Hz yields no bit. -/
theorem tone_classifier_bit_append (lb : Bool) (st : BitStreamState)
    (f now stime : ℚ) :
    (|f - 21.53| ≤ 0.5 →
      frequency_to_binary_debug f = some 0 ∧
      (append_binary_state lb st f now stime).binary_buffer
        = dequeAppend 500 st.binary_buffer 0 ∧
      (lb = true →
        (append_binary_state lb st f now stime).binary_log
          = st.binary_log
              ++ [⟨now, stime, 0, f, st.binary_log.length + 1⟩])) ∧
    (|f - 26.92| ≤ 0.5 →
      frequency_to_binary_debug f = some 1 ∧
      (append_binary_state lb st f now stime).binary_buffer
        = dequeAppend 500 st.binary_buffer 1 ∧
      (lb = true →
        (append_binary_state lb st f now stime).binary_log
          = st.binary_log
              ++ [⟨now, stime, 1, f, st.binary_log.length + 1⟩])) ∧
    (¬(|f - 21.53| ≤ 0.5 ∨ |f - 26.92| ≤ 0.5) →
      frequency_to_binary_debug f = none ∧
      append_binary_state lb st f now stime = st) ∧
    frequency_to_binary_debug 21 = none := by
  have e1 : freq_1 = 21.53 := rfl
  have e2 : freq_2 = 26.92 := rfl
  have et : freq_tolerance = 0.5 := rfl
  refine ⟨?_, ?_, ?_, ?_⟩
  · intro h
    have h1 : |f - freq_1| ≤ freq_tolerance := by rw [e1, et]; exact h
    have hd : frequency_to_binary_debug f = some 0 := by
      unfold frequency_to_binary_debug; rw [if_pos h1]
    have ha : append_binary_state lb st f now stime
        = bit_append lb st 0 now stime f := by
      unfold append_binary_state; rw [hd]
    refine ⟨hd, by rw [ha]; rfl, fun hlb => ?_⟩
    rw [ha]; simp [bit_append, hlb]
  · intro h
    have h1 : ¬ |f - freq_1| ≤ freq_tolerance := by
      rw [e1, et]; rw [abs_le] at h ⊢; intro hc; linarith [h.1, hc.2]
    have h2 : |f - freq_2| ≤ freq_tolerance := by rw [e2, et]; exact h
    have hd : frequency_to_binary_debug f = some 1 := by
      unfold frequency_to_binary_debug; rw [if_neg h1, if_pos h2]
    have ha : append_binary_state lb st f now stime
        = bit_append lb st 1 now stime f := by
      unfold append_binary_state; rw [hd]
    refine ⟨hd, by rw [ha]; rfl, fun hlb => ?_⟩
    rw [ha]; simp [bit_append, hlb]
  · intro h
    obtain ⟨hA, hB⟩ := not_or.mp h
    have h1 : ¬ |f - freq_1| ≤ freq_tolerance := by rw [e1, et]; exact hA
    have h2 : ¬ |f - freq_2| ≤ freq_tolerance := by rw [e2, et]; exact hB
    have hd : frequency_to_binary_debug f = none := by
      unfold frequency_to_binary_debug
      rw [if_neg h1, if_neg h2]
      split_ifs <;> rfl
    exact ⟨hd, by unfold append_binary_state; rw [hd]⟩
  · unfold frequency_to_binary_debug
    rw [e1, e2, et]
    have hx : ¬ |(21 : ℚ) - 21.53| ≤ 0.5 := by rw [abs_le]; intro hc; linarith [hc.1]
    have hy : ¬ |(21 : ℚ) - 26.92| ≤ 0.5 := by rw [abs_le]; intro hc; linarith [hc.1]
    rw [if_neg hx, if_neg hy]
    split_ifs <;> rfl

/-- C2 witness: tone-0 frequency 21.53 at time 5 (session time 2) with
logging on, from empty stores, appends bit 0 to the buffer and a full
record to the log. -/
theorem tone_classifier_bit_append_witness :
    |(21.53 : ℚ) - 21.53| ≤ 0.5 ∧
    frequency_to_binary_debug 21.53 = some 0 ∧
    (append_binary_state true ⟨[], []⟩ 21.53 5 2).binary_buffer
      = dequeAppend 500 [] 0 ∧
    (append_binary_state true ⟨[], []⟩ 21.53 5 2).binary_log
      = ([] : List BinRecord) ++ [⟨5, 2, 0, 21.53, 1⟩] := by
  have h0 : |(21.53 : ℚ) - 21.53| ≤ 0.5 := by norm_num
  obtain ⟨hd, hb, hl⟩ :=
    (tone_classifier_bit_append true ⟨[], []⟩ 21.53 5 2).1 h0
  exact ⟨h0, hd, hb, hl rfl⟩

/-- C3: the audio decoder tries int16-LE, then float32, then int16-BE and
returns the first interpretation yielding at least 100 samples; hence for a
buffer valid (with at least 100 samples) under both the int16-LE and the
float32 interpretation, the result is the int16-LE samples normalised by
32768. -/
theorem audio_decoder_priority (b : List Nat)
    (h4 : b.length % 4 = 0)
    (hle : 100 ≤ (int16le_samples b).length)
    (hf : 100 ≤ (float32_samples b).length) :
    process_audio_chunk_decode b
      = some (.int16le ((int16le_samples b).map
          fun v : ℤ => (v : ℚ) / 32768)) := by
  have h2 : b.length % 2 = 0 := by omega
  have hlen : ¬ ((int16le_samples b).map
      fun v : ℤ => (v : ℚ) / 32768).length < 100 := by
    rw [List.length_map]; omega
  unfold process_audio_chunk_decode
  rw [if_pos h2, if_neg hlen]

set_option maxRecDepth 8000 in
/-- C3 witness: a 400-byte zero buffer parses as 200 int16-LE samples and
100 float32 samples, and the decoder returns the int16-LE interpretation. -/
theorem audio_decoder_priority_witness :
    (List.replicate 400 0).length % 4 = 0 ∧
    100 ≤ (int16le_samples (List.replicate 400 0)).length ∧
    100 ≤ (float32_samples (List.replicate 400 0)).length ∧
    process_audio_chunk_decode (List.replicate 400 0)
      = some (.int16le ((int16le_samples (List.replicate 400 0)).map
          fun v : ℤ => (v : ℚ) / 32768)) := by
  refine ⟨by decide, by decide, by decide, ?_⟩
  exact audio_decoder_priority (List.replicate 400 0)
    (by decide) (by decide) (by decide)

/-- Membership in `significant_peaks`: a bin survives iff it is in-band and
meets the threshold. -/
theorem significant_peaks_mem (thr : ℚ) (bins : List Bin) (b : Bin) :
    b ∈ significant_peaks thr bins ↔
      b ∈ bins ∧ (20 ≤ b.freq ∧ b.freq ≤ 34) ∧ thr ≤ b.mag := by
  simp only [significant_peaks, target_range_bins, List.mem_filter,
    Bool.and_eq_true, decide_eq_true_iff]
  tauto

/-- The head of the stable descending sort is an element of maximal
magnitude, and every element strictly before it in the original list has
strictly smaller magnitude (first-encountered tie-breaking). -/
theorem sort_by_mag_desc_head_spec (l : List Bin) (p : Bin)
    (h : (sort_by_mag_desc l).head? = some p) :
    (∃ l1 l2, l = l1 ++ p :: l2 ∧ ∀ b ∈ l1, b.mag < p.mag) ∧
      ∀ b ∈ l, b.mag ≤ p.mag := by
  induction l generalizing p with
  | nil => simp [sort_by_mag_desc, List.insertionSort] at h
  | cons x l IH =>
    rw [show sort_by_mag_desc (x :: l)
        = List.orderedInsert (fun a b => b.mag ≤ a.mag) x (sort_by_mag_desc l)
      from rfl] at h
    rcases hs : sort_by_mag_desc l with - | ⟨m, rest⟩
    · rw [hs] at h
      simp only [List.orderedInsert, List.head?_cons, Option.some.injEq] at h
      subst h
      have hl : l = [] := by
        have hp := List.perm_insertionSort (fun a b => b.mag ≤ a.mag) l
        rw [show List.insertionSort (fun a b => b.mag ≤ a.mag) l
            = sort_by_mag_desc l from rfl, hs] at hp
        exact (List.Perm.nil_eq hp).symm
      subst hl
      exact ⟨⟨[], [], rfl, by simp⟩, by simp⟩
    · rw [hs] at h
      simp only [List.orderedInsert] at h
      obtain ⟨hm, hle⟩ := IH m (by rw [hs]; rfl)
      by_cases hr : m.mag ≤ x.mag
      · rw [if_pos hr] at h
        simp only [List.head?_cons, Option.some.injEq] at h
        subst h
        refine ⟨⟨[], l, rfl, by simp⟩, ?_⟩
        intro b hb
        rcases List.mem_cons.mp hb with hb | hb
        · subst hb; exact le_refl _
        · exact le_trans (hle b hb) hr
      · rw [if_neg hr] at h
        simp only [List.head?_cons, Option.some.injEq] at h
        subst h
        obtain ⟨l1, l2, hsplit, hlt⟩ := hm
        refine ⟨⟨x :: l1, l2, by rw [hsplit]; rfl, ?_⟩, ?_⟩
        · intro b hb
          rcases List.mem_cons.mp hb with hb | hb
          · subst hb; exact lt_of_not_le hr
          · exact hlt b hb
        · intro b hb
          rcases List.mem_cons.mp hb with hb | hb
          · subst hb; exact le_of_lt (lt_of_not_le hr)
          · exact hle b hb

/-- The descending sort is a permutation, so it is empty iff its input is. -/
theorem sort_by_mag_desc_eq_nil (l : List Bin) :
    sort_by_mag_desc l = [] ↔ l = [] := by
  constructor
  · intro h
    have hp := List.perm_insertionSort (fun a b => b.mag ≤ a.mag) l
    rw [show List.insertionSort (fun a b => b.mag ≤ a.mag) l
        = sort_by_mag_desc l from rfl, h] at hp
    exact (List.Perm.nil_eq hp).symm
  · intro h; rw [h]; rfl

/-- C4: a Peak is emitted iff some bin in the band [20, 34] Hz has
magnitude at or above the minimum-signal-strength threshold (default 15);
the emitted Peak is in-band, meets the threshold, has maximal magnitude
among the qualifying bins, and precedes (in encounter order, i.e. ascending
frequency) every qualifying bin of equal magnitude; and when no bin
qualifies the whole downstream detection block leaves the session state
unchanged. -/
theorem spectral_peak_selection (thr : ℚ) (bins : List Bin)
    (lf lb : Bool) (s : DecoderSession) (t lvl : ℚ) :
    min_signal_strength = 15 ∧
    (select_peak thr bins = none ↔
      ∀ b ∈ bins, 20 ≤ b.freq → b.freq ≤ 34 → b.mag < thr) ∧
    (∀ p, select_peak thr bins = some p →
      (20 ≤ p.freq ∧ p.freq ≤ 34) ∧ thr ≤ p.mag ∧
      (∀ b ∈ bins, 20 ≤ b.freq → b.freq ≤ 34 → thr ≤ b.mag →
        b.mag ≤ p.mag) ∧
      (∃ l1 l2, significant_peaks thr bins = l1 ++ p :: l2 ∧
        ∀ b ∈ l1, b.mag < p.mag)) ∧
    (select_peak min_signal_strength bins = none →
      process_peak_block lf lb s bins t lvl = s) := by
  refine ⟨rfl, ?_, ?_, ?_⟩
  · unfold select_peak
    rw [List.head?_eq_none_iff, sort_by_mag_desc_eq_nil]
    constructor
    · intro h b hb h20 h34
      by_contra hc
      have : b ∈ significant_peaks thr bins :=
        (significant_peaks_mem thr bins b).mpr ⟨hb, ⟨h20, h34⟩, not_lt.mp hc⟩
      rw [h] at this
      exact absurd this (List.not_mem_nil b)
    · intro h
      by_contra hc
      obtain ⟨b, hb⟩ := List.exists_mem_of_ne_nil _ hc
      obtain ⟨hbin, ⟨h20, h34⟩, hthr⟩ := (significant_peaks_mem thr bins b).mp hb
      exact absurd hthr (not_le.mpr (h b hbin h20 h34))
  · intro p hp
    obtain ⟨⟨l1, l2, hsplit, hlt⟩, hle⟩ :=
      sort_by_mag_desc_head_spec (significant_peaks thr bins) p hp
    have hpmem : p ∈ significant_peaks thr bins := by
      rw [hsplit]; exact List.mem_append_right l1 (List.mem_cons_self p l2)
    obtain ⟨-, hband, hthr⟩ := (significant_peaks_mem thr bins p).mp hpmem
    refine ⟨hband, hthr, ?_, l1, l2, hsplit, hlt⟩
    intro b hb h20 h34 hmag
    exact hle b ((significant_peaks_mem thr bins b).mpr ⟨hb, ⟨h20, h34⟩, hmag⟩)
  · intro h
    unfold process_peak_block
    rw [h]

/-- C4 witness: among bins (25 Hz, 3), (21 Hz, 20), (30 Hz, 20) with
threshold 15 the selected peak is the earlier (lower-frequency) of the two
equal-magnitude qualifying bins; and with no bins at all the detection
block is the identity on a concrete session state. -/
theorem spectral_peak_selection_witness :
    select_peak 15 [⟨25, 3⟩, ⟨21, 20⟩, ⟨30, 20⟩] = some ⟨21, 20⟩ ∧
    (20 ≤ (Bin.mk 21 20).freq ∧ (Bin.mk 21 20).freq ≤ 34) ∧
    (15 : ℚ) ≤ (Bin.mk 21 20).mag ∧
    process_peak_block true true
      ⟨[], [], [], [], [], [], [], [], [], none, 0, 0, none, none, []⟩
      [] 0 0
      = ⟨[], [], [], [], [], [], [], [], [], none, 0, 0, none, none, []⟩ := by
  have hsel : select_peak 15 [⟨25, 3⟩, ⟨21, 20⟩, ⟨30, 20⟩]
      = some ⟨21, 20⟩ := by decide
  obtain ⟨-, -, h3, -⟩ :=
    spectral_peak_selection 15 [⟨25, 3⟩, ⟨21, 20⟩, ⟨30, 20⟩] true true
      ⟨[], [], [], [], [], [], [], [], [], none, 0, 0, none, none, []⟩ 0 0
  obtain ⟨hband, hthr, -, -⟩ := h3 ⟨21, 20⟩ hsel
  obtain ⟨-, -, -, h4⟩ :=
    spectral_peak_selection min_signal_strength [] true true
      ⟨[], [], [], [], [], [], [], [], [], none, 0, 0, none, none, []⟩ 0 0
  exact ⟨hsel, hband, hthr, h4 (by decide)⟩

/-- Folding bounded appends from a within-capacity start keeps exactly the
trailing `cap` elements of the full stream. -/
theorem foldl_dequeAppend (cap : Nat) (hcap : 0 < cap) :
    ∀ (bs acc : List Nat), acc.length ≤ cap →
      bs.foldl (dequeAppend cap) acc
        = (acc ++ bs).drop (acc.length + bs.length - cap) := by
  intro bs
  induction bs with
  | nil =>
    intro acc hacc
    simp [Nat.sub_eq_zero_of_le hacc]
  | cons b bs IH =>
    intro acc hacc
    rw [List.foldl_cons]
    by_cases hlt : acc.length < cap
    · have h1 : dequeAppend cap acc b = acc ++ [b] := by
        unfold dequeAppend; rw [if_pos hlt]
      rw [h1, IH (acc ++ [b]) (by simp; omega)]
      rw [List.append_assoc]
      congr 1
      simp
      omega
    · have h1 : dequeAppend cap acc b = acc.drop 1 ++ [b] := by
        unfold dequeAppend; rw [if_neg hlt]
      have heq : acc.length = cap := le_antisymm hacc (not_lt.mp hlt)
      have hlen : (acc.drop 1 ++ [b]).length = cap := by
        simp [List.length_drop]; omega
      rw [h1, IH _ (le_of_eq hlen), hlen]
      have hrw : acc.drop 1 ++ [b] ++ bs = (acc ++ b :: bs).drop 1 := by
        rcases acc with - | ⟨a, acc2⟩
        · exact absurd heq (by simp; omega)
        · simp
      rw [hrw, List.drop_drop]
      congr 1
      simp
      omega

/-- Folding `bit_append` decomposes into the bounded-deque fold on the
buffer and a plain append on the log (whose recorded bit values are the
input bits). -/
theorem bit_append_foldl (lb : Bool) :
    ∀ (xs : List (Nat × ℚ × ℚ × ℚ)) (s : BitStreamState),
      (xs.foldl (fun s x => bit_append lb s x.1 x.2.1 x.2.2.1 x.2.2.2)
          s).binary_buffer
        = (xs.map fun x => x.1).foldl (dequeAppend 500) s.binary_buffer ∧
      (lb = true →
        (xs.foldl (fun s x => bit_append lb s x.1 x.2.1 x.2.2.1 x.2.2.2)
            s).binary_log.map BinRecord.binary_state
          = s.binary_log.map BinRecord.binary_state
              ++ xs.map fun x => x.1) := by
  intro xs
  induction xs with
  | nil => intro s; simp
  | cons x xs IH =>
    intro s
    rw [List.foldl_cons]
    obtain ⟨IH1, IH2⟩ :=
      IH (bit_append lb s x.1 x.2.1 x.2.2.1 x.2.2.2)
    constructor
    · rw [IH1]; rfl
    · intro hlb
      rw [IH2 hlb]
      subst hlb
      simp [bit_append]

/-- C6: after appending any sequence of decoded data bits in order (logging
enabled, empty start), the display buffer holds exactly the last
min(n, 500) bits in their original relative order, and the unbounded log
holds all n bits in order. -/
theorem bit_accumulator_ring (xs : List (Nat × ℚ × ℚ × ℚ)) :
    (run_bits true xs).binary_buffer
      = (xs.map fun x => x.1).drop (xs.length - 500) ∧
    (run_bits true xs).binary_buffer.length = min xs.length 500 ∧
    (run_bits true xs).binary_log.map BinRecord.binary_state
      = xs.map fun x => x.1 := by
  obtain ⟨h1, h2⟩ := bit_append_foldl true xs ⟨[], []⟩
  have hbuf : (run_bits true xs).binary_buffer
      = (xs.map fun x => x.1).drop (xs.length - 500) := by
    unfold run_bits
    rw [h1, foldl_dequeAppend 500 (by omega) _ [] (by simp)]
    simp
  refine ⟨hbuf, ?_, by unfold run_bits; rw [h2 rfl]; simp⟩
  rw [hbuf, List.length_drop, List.length_map]
  omega

/-- C7: with fewer than 8 bits the pattern decoder reports insufficient
data and runs no codec (the result is the same whatever the codec list);
with at least 8 bits, a codec that raises contributes exactly its
failure-marker string in its own slot while every other codec's slot is
still computed and the overall report is still returned. -/
theorem pattern_decoder_isolation (codecs : List (String × String × Codec))
    (bits : List Nat) :
    (bits.length < 8 →
      analyze_patterns_gen codecs bits = .insufficient ∧
      decode_binary_sequence_gen codecs bits
        = .error "Need at least 8 bits for decoding") ∧
    (∀ (pre post : List (String × String × Codec)) (k m : String)
        (f : Codec) (e : String),
      8 ≤ bits.length → f bits = .error e →
      decode_binary_sequence_gen (pre ++ (k, m, f) :: post) bits
        = .ok (codec_slots pre bits
            ++ (k, .s m) :: codec_slots post bits)) := by
  constructor
  · intro h
    constructor
    · unfold analyze_patterns_gen; rw [if_pos h]
    · unfold decode_binary_sequence_gen; rw [if_pos h]
  · intro pre post k m f e h8 hf
    unfold decode_binary_sequence_gen
    rw [if_neg (not_lt.mpr h8)]
    unfold codec_slots
    rw [List.filterMap_append, List.filterMap_cons]
    simp only [run_codec, hf]

/-- C7 witness: one bit is insufficient (whatever the shipped codecs would
do), and on the 8-bit input a single always-raising codec yields a report
holding exactly its failure marker. -/
theorem pattern_decoder_isolation_witness :
    ([0] : List Nat).length < 8 ∧
    analyze_patterns_gen decode_codecs [0] = .insufficient ∧
    decode_binary_sequence_gen decode_codecs [0]
      = .error "Need at least 8 bits for decoding" ∧
    (8 : Nat) ≤ ([0, 1, 0, 0, 0, 0, 0, 1] : List Nat).length ∧
    decode_binary_sequence_gen
        [("boom_codec", "Decode failed", fun _ => .error "boom")]
        [0, 1, 0, 0, 0, 0, 0, 1]
      = .ok [("boom_codec", SlotVal.s "Decode failed")] := by
  obtain ⟨ha, hd⟩ := (pattern_decoder_isolation decode_codecs [0]).1 (by decide)
  have hiso := (pattern_decoder_isolation decode_codecs
      [0, 1, 0, 0, 0, 0, 0, 1]).2 [] [] "boom_codec" "Decode failed"
      (fun _ => .error "boom") "boom" (by decide) rfl
  exact ⟨by decide, ha, hd, by decide, hiso⟩

set_option maxRecDepth 20000 in
/-- C8: on the bit list [0,1,0,0,0,0,0,1] ("01000001", value 65) the
ASCII-8 codec yields "A", the Hex-bytes codec yields "41 ", the
Byte-decimal codec yields "65" and the Nibble-4 codec yields "4 1". -/
theorem pattern_decoder_known_byte :
    (decode_binary_sequence [0, 1, 0, 0, 0, 0, 0, 1]).map
        (fun r => (r.lookup "ascii_8bit", r.lookup "hex_bytes",
          r.lookup "bytes_decimal", r.lookup "nibbles_4bit"))
      = .ok (some (.s "A"), some (.s "41 "), some (.s "65"),
          some (.s "4 1")) := by
  decide

set_option maxRecDepth 20000 in
/-- C9: the Monolit heuristic reports insufficient data below 64 bits and
performs no analysis; at 64 bits or more its score is the sum of +30 for
any call-sign candidate, +25 for any five-digit group, +25 for any
eight-digit block and +20 for any code-word candidate, and the likelihood
band is HIGH iff score ≥ 70, MEDIUM iff 40 ≤ score < 70, LOW iff
20 ≤ score < 40 and NONE iff score < 20; in particular 64 zero bits (an
ASCII rendering with none of the features) score 0 and report NONE. -/
theorem monolit_heuristic :
    (∀ bits : List Nat, bits.length < 64 →
      detect_monolit_coding bits
        = .insufficient "Insufficient data for Monolit analysis") ∧
    (∀ bits : List Nat, 64 ≤ bits.length →
      detect_monolit_coding bits
        = .report ((callsign_patterns (ascii_chars_of bits)).take 5)
            ((five_digit_groups (decimal_sequence_of bits)).take 10)
            ((eight_digit_blocks (decimal_sequence_of bits)).take 5)
            ((code_word_candidates (ascii_chars_of bits)).take 5)
            (monolit_score bits) (monolit_likelihood (monolit_score bits)) ∧
      monolit_score bits
        = (if callsign_patterns (ascii_chars_of bits) ≠ [] then 30 else 0)
          + (if five_digit_groups (decimal_sequence_of bits) ≠ [] then 25
             else 0)
          + (if eight_digit_blocks (decimal_sequence_of bits) ≠ [] then 25
             else 0)
          + (if code_word_candidates (ascii_chars_of bits) ≠ [] then 20
             else 0)) ∧
    (∀ s : Nat,
      (monolit_likelihood s = "HIGH - Strong Monolit characteristics"
        ↔ 70 ≤ s) ∧
      (monolit_likelihood s = "MEDIUM - Some Monolit patterns"
        ↔ 40 ≤ s ∧ s < 70) ∧
      (monolit_likelihood s = "LOW - Few Monolit indicators"
        ↔ 20 ≤ s ∧ s < 40) ∧
      (monolit_likelihood s = "NONE - No clear Monolit patterns"
        ↔ s < 20)) ∧
    detect_monolit_coding (List.replicate 64 0)
      = .report [] [] [] [] 0 "NONE - No clear Monolit patterns" := by
  refine ⟨?_, ?_, ?_, by decide⟩
  · intro bits h
    unfold detect_monolit_coding
    rw [if_pos h]
  · intro bits h
    constructor
    · unfold detect_monolit_coding
      rw [if_neg (not_lt.mpr h)]
    · rfl
  · intro s
    unfold monolit_likelihood
    refine ⟨?_, ?_, ?_, ?_⟩ <;> split_ifs with h1 h2 h3 <;>
      simp_all <;> omega

set_option maxRecDepth 20000 in
/-- C9 witness: 63 bits are insufficient; at 64 zero bits the score equals
its feature sum; and likelihood 0 is the NONE band. -/
theorem monolit_heuristic_witness :
    (List.replicate 63 0).length < 64 ∧
    detect_monolit_coding (List.replicate 63 0)
      = .insufficient "Insufficient data for Monolit analysis" ∧
    (64 : Nat) ≤ (List.replicate 64 0).length ∧
    monolit_score (List.replicate 64 0)
      = (if callsign_patterns (ascii_chars_of (List.replicate 64 0)) ≠ []
         then 30 else 0)
        + (if five_digit_groups (decimal_sequence_of (List.replicate 64 0))
            ≠ [] then 25 else 0)
        + (if eight_digit_blocks (decimal_sequence_of (List.replicate 64 0))
            ≠ [] then 25 else 0)
        + (if code_word_candidates (ascii_chars_of (List.replicate 64 0))
            ≠ [] then 20 else 0) ∧
    monolit_likelihood 0 = "NONE - No clear Monolit patterns" := by
  refine ⟨by decide, monolit_heuristic.1 _ (by decide), by decide,
    (monolit_heuristic.2.1 _ (by decide)).2, ?_⟩
  exact (monolit_heuristic.2.2.1 0).2.2.2.mpr (by decide)
